import Mathlib

/-!
Verification of the DJN-Broker trading system.

This file shallowly embeds the parts of the repository that the verified
properties speak about:

* `trade/strategy.py` — `simple_sentiment_momentum` and
  `enhanced_strategy_with_insights`;
* `trade/alpaca_broker.py` — `execute_orders`;
* `trade/position_manager.py` — `PositionManager.should_close_position`;
* `learning/strategy_optimizer.py` — `StrategyOptimizer.optimize_strategy`;
* `learning/analyzer.py` — `PerformanceAnalyzer.analyze_performance`;
* `learning/trade_memory.py` — `TradeMemory.get_recent_trades` /
  `get_recent_signals`.

Modelling conventions:

* Python floats are modelled as exact rationals (`ℚ`).  Division by zero
  yields `0` in `ℚ`; the strategies only divide by prices/counts that the
  verified statements do not constrain to zero, and no verified property
  depends on the value of such a quotient.
* Python dictionaries with a fixed key set become structures; a key that a
  record may lack becomes an `Option` field, and `d.get(k, v)` becomes
  `(field).getD v`.
* A pandas `DataFrame` of prices becomes an ordered association list of
  columns, each column a `List (Option ℚ)` (a `none` entry is a `NaN`, so
  `dropna()` is `List.filterMap id`).
* Wall-clock reads (`datetime.now()`) become explicit string / rational
  parameters, one per place the clock is read.
* Calls into the Alpaca SDK are nondeterministic from the program's point of
  view; they are modelled by an explicit environment (`BrokerEnv`) giving the
  outcome of each call.
-/

namespace DJNBroker

/-! ## `trade/strategy.py` -/

/-- One scored news / reddit item: `item.get("sentiment", {}).get("compound", 0.0)`
is `compound.getD 0`. -/
structure ScoredItem where
  compound : Option ℚ
deriving Repr, DecidableEq

/-- A price frame: ordered list of (ticker, column) pairs; a `none` cell is NaN. -/
structure PriceFrame where
  cols : List (String × List (Option ℚ))
deriving Repr, DecidableEq

/-- `t in prices.columns` / `prices[t]`: first column whose name matches. -/
def PriceFrame.col (p : PriceFrame) (t : String) : Option (List (Option ℚ)) :=
  (p.cols.find? (fun c => c.1 == t)).map (fun c => c.2)

/-- Average compound sentiment over all items (count includes items with no
sentiment key, whose score defaults to 0), `0.0` when there are no items. -/
def avgSentiment (items : List ScoredItem) : ℚ :=
  let agg := (items.map (fun it => it.compound.getD 0)).sum
  let cnt := items.length
  if cnt = 0 then 0 else agg / cnt

/-- `series.iloc[-1] / series.iloc[-momentum_window] - 1.0` on the dropna'd
series; Python's negative indexing makes `iloc[-w]` the element at
`len - w` for `w > 0` and the first element for `w = 0`. -/
def momentumOf (series : List ℚ) (momentum_window : ℕ) : ℚ :=
  let idx := if momentum_window = 0 then 0 else series.length - momentum_window
  series.getLastD 0 / series.getD idx 0 - 1

/-- A trading signal.  The first four fields are the keys every base signal
carries; the rest are the optional keys `enhanced_strategy_with_insights`
adds (absent on base signals). -/
structure Signal where
  ticker : String
  action : String
  strength : ℚ
  momentum : ℚ
  historical_win_rate : Option ℚ := none
  weekend_boost : Bool := false
  weekend_confidence : Option ℚ := none
  weekend_reasoning : Option String := none
  weekend_only : Bool := false
deriving Repr, DecidableEq

/-- `simple_sentiment_momentum` from `trade/strategy.py`: aggregate sentiment,
then one BUY signal per ticker that has a column with at least
`momentum_window + 1` non-NaN observations, positive momentum, and
`avg_sent >= min_sentiment`; returns `(signals, avg_sent)`. -/
def simple_sentiment_momentum (prices : PriceFrame)
    (news_scores reddit_scores : List ScoredItem) (tickers : List String)
    (momentum_window : ℕ := 6) (min_sentiment : ℚ := 2/5) :
    List Signal × ℚ :=
  let avg_sent := avgSentiment (news_scores ++ reddit_scores)
  let sigs := tickers.filterMap (fun t =>
    match prices.col t with
    | none => none
    | some c =>
      let series := c.filterMap id
      if series.length < momentum_window + 1 then none
      else
        let mom := momentumOf series momentum_window
        if min_sentiment ≤ avg_sent ∧ 0 < mom then
          some { ticker := t, action := "BUY", strength := min avg_sent 1,
                 momentum := mom }
        else none)
  (sigs, avg_sent)

/-- A weekend Tree-of-Thoughts insight record; every key the strategy reads is
optional, with the defaults `insight.get(key, default)` supplies. -/
structure WeekendInsight where
  ticker : Option String
  signal : Option String
  confidence : Option ℚ
  reasoning : Option String
deriving Repr, DecidableEq

/-- A past trade as returned by the RAG memory (only `outcome` is read). -/
structure TradeOutcome where
  outcome : Option String
deriving Repr, DecidableEq

/-- `rag_memory.get_ticker_history(ticker, n_results=3)` result. -/
structure TickerHistory where
  insights : List String
  trades : List TradeOutcome
deriving Repr, DecidableEq

/-- The `historical_context` dict: built only when a RAG memory is passed, for
tickers in the universe whose query succeeds (`none` models both an absent
entry and a query that raised) and returned a truthy `insights` or `trades`. -/
def historicalContext (rag : Option (String → Option TickerHistory))
    (tickers : List String) (t : String) : Option TickerHistory :=
  match rag with
  | none => none
  | some query =>
    if t ∈ tickers then
      match query t with
      | none => none
      | some h => if h.insights ≠ [] ∨ h.trades ≠ [] then some h else none
    else none

/-- Python dict assignment `m[k] = v`: overwrite in place if the key exists,
else append (dicts preserve first-insertion order). -/
def insertInsight (m : List (String × WeekendInsight)) (k : String)
    (v : WeekendInsight) : List (String × WeekendInsight) :=
  if m.any (fun p => p.1 == k) then
    m.map (fun p => if p.1 == k then (k, v) else p)
  else m ++ [(k, v)]

/-- The `insights_map` dict keyed by ticker (entries with no ticker skipped). -/
def insightsMapOf (ws : List WeekendInsight) : List (String × WeekendInsight) :=
  ws.foldl (fun m w =>
    match w.ticker with
    | some t => insertInsight m t w
    | none => m) []

/-- `ticker in insights_map` / `insights_map[ticker]`. -/
def lookupInsight (m : List (String × WeekendInsight)) (t : String) :
    Option WeekendInsight :=
  (m.find? (fun p => p.1 == t)).map (fun p => p.2)

/-- The per-signal enhancement loop body of `enhanced_strategy_with_insights`:
first the historical-success bookkeeping, then boost / filter / keep according
to the weekend insight; `none` models the `continue` that drops the signal.
The historical part mutates the signal dict before the insight branch, so it
is split out as `applyHistory` (success flag, updated signal). -/
def applyHistory (hctx : String → Option TickerHistory) (sig : Signal) :
    Bool × Signal :=
  match hctx sig.ticker with
  | none => (false, sig)
  | some h =>
    let wins := (h.trades.filter (fun tr => tr.outcome == some "WIN")).length
    let losses := (h.trades.filter (fun tr => tr.outcome == some "LOSS")).length
    let rate : ℚ := if 0 < wins + losses then (wins : ℚ) / ((wins : ℚ) + losses) else 0
    if losses < wins ∧ 0 < wins then
      (true, { sig with historical_win_rate := some rate })
    else (false, sig)

/-- The weekend-insight branch of the enhancement loop, applied after
`applyHistory`. -/
def enhanceSignal (imap : List (String × WeekendInsight))
    (hctx : String → Option TickerHistory) (sig : Signal) : Option Signal :=
  let histPair : Bool × Signal := applyHistory hctx sig
  let historical_success := histPair.1
  let sig := histPair.2
  match lookupInsight imap sig.ticker with
  | none => some sig
  | some ins =>
    let signal_type := ins.signal.getD "NEUTRAL"
    let confidence := ins.confidence.getD (1/2)
    if signal_type = "BULLISH" ∧ sig.action = "BUY" then
      let boost_multiplier :=
        (1 + confidence * (1/2)) * (if historical_success then 6/5 else 1)
      some { sig with
        strength := min 1 (sig.strength * boost_multiplier),
        weekend_boost := true,
        weekend_confidence := some confidence,
        weekend_reasoning := some (ins.reasoning.getD "") }
    else if signal_type = "BEARISH" ∧ sig.action = "BUY" ∧ 7/10 < confidence then
      none
    else some sig

/-- The trailing loop of `enhanced_strategy_with_insights`: add a BUY signal
for each high-confidence bullish weekend insight on a ticker with no base
signal but enough price data; its strength is the raw confidence. -/
def weekendAdditions (prices : PriceFrame)
    (imap : List (String × WeekendInsight)) (baseTickers : List String)
    (momentum_window : ℕ) : List Signal :=
  imap.filterMap (fun p =>
    if p.1 ∈ baseTickers then none
    else
      let signal_type := p.2.signal.getD "NEUTRAL"
      let confidence := p.2.confidence.getD (1/2)
      if signal_type = "BULLISH" ∧ 13/20 ≤ confidence then
        match prices.col p.1 with
        | none => none
        | some c =>
          let series := c.filterMap id
          if momentum_window + 1 ≤ series.length then
            some { ticker := p.1, action := "BUY", strength := confidence,
                   momentum := momentumOf series momentum_window,
                   weekend_only := true,
                   weekend_confidence := some confidence,
                   weekend_reasoning := some (p.2.reasoning.getD "") }
          else none
      else none)

/-- `enhanced_strategy_with_insights` from `trade/strategy.py` (logging calls
elided; the RAG memory argument defaults to `None` as in the source). -/
def enhanced_strategy_with_insights (prices : PriceFrame)
    (news_scores reddit_scores : List ScoredItem) (tickers : List String)
    (weekend_insights : List WeekendInsight) (momentum_window : ℕ := 6)
    (min_sentiment : ℚ := 2/5)
    (rag_memory : Option (String → Option TickerHistory) := none) :
    List Signal × ℚ :=
  let base := simple_sentiment_momentum prices news_scores reddit_scores tickers
    momentum_window min_sentiment
  let imap := insightsMapOf weekend_insights
  let hctx := historicalContext rag_memory tickers
  let enhanced := base.1.filterMap (enhanceSignal imap hctx)
  let additions := weekendAdditions prices imap (base.1.map Signal.ticker)
    momentum_window
  (enhanced ++ additions, base.2)

/-! ## `trade/position_manager.py` -/

/-- The slice of the config `PositionManager.__init__` reads. -/
structure PMConfig where
  trading_style : String
  min_hold_hours : ℚ
  max_hold_days : ℤ
  stop_loss_pct : ℚ
  take_profit_pct : ℚ
deriving Repr, DecidableEq

/-- `PositionManager.should_close_position`.  The elapsed time
`now - entry_time` is passed in hours (`none` when no entry time is known);
`timedelta.days` is the floor of the elapsed hours over 24. -/
def should_close_position (cfg : PMConfig) (unrealized_plpc : ℚ)
    (elapsedHours : Option ℚ) : Bool × String :=
  if cfg.take_profit_pct ≤ unrealized_plpc then (true, "take_profit")
  else if unrealized_plpc ≤ -cfg.stop_loss_pct then (true, "stop_loss")
  else
    match elapsedHours with
    | some h =>
      if cfg.trading_style = "swing" then
        if h < cfg.min_hold_hours then (false, "min_hold_not_met")
        else if cfg.max_hold_days ≤ ⌊h / 24⌋ then
          if 0 < unrealized_plpc then (true, "max_hold_time_profit")
          else if -(1/100) < unrealized_plpc then (true, "max_hold_time_small_loss")
          else (false, "hold_for_stop_loss")
        else (false, "hold")
      else (false, "hold")
    | none => (false, "hold")

/-! ## `trade/alpaca_broker.py` -/

/-- Python's `round(_, 2)` (banker's rounding) on exact rationals: round
`100 q` half-to-even to an integer, then divide by 100. -/
def roundHalfEven (q : ℚ) : ℤ :=
  let f := ⌊q⌋
  let frac := q - f
  if frac < 1/2 then f
  else if 1/2 < frac then f + 1
  else if f % 2 = 0 then f else f + 1

/-- `round(q, 2)`. -/
def round2 (q : ℚ) : ℚ := (roundHalfEven (q * 100) : ℚ) / 100

/-- An executed-order record.  The broker-assigned handles (`order_id`,
`status`, `submitted_at`) are opaque strings from the Alpaca response and are
not modelled; the fields below are the ones the accounting computes. -/
structure OrderRec where
  ticker : String
  action : String
  notional : ℚ
deriving Repr, DecidableEq

/-- Outcome of the broker calls `execute_orders` makes, from the program's
point of view: whether the client was constructed, whether the account query
succeeded (with the exception text otherwise), and the account's buying
power.  Each signal in the batch is paired with the outcome of its
`submit_order` call (`false` = the call raised). -/
structure BrokerEnv where
  connected : Bool
  accountOk : Bool
  accountErr : String
  buying_power : ℚ
deriving Repr, DecidableEq

/-- Result dict of `execute_orders`: the error returns carry an `error` key
and no `executed_count`; the normal return carries `executed_count` and no
`error`. -/
structure ExecResult where
  orders : List OrderRec
  cash_left : ℚ
  error : Option String := none
  executed_count : Option ℕ := none
deriving Repr, DecidableEq

/-- The `for signal in signals` loop of `execute_orders`: allocate
`min(cash, capital * max_alloc_per_trade)`, skip non-positive allocations,
skip signals whose submission raises, record the order (notional rounded to
cents) and deduct the allocation on success. -/
def execLoop (capital max_alloc : ℚ) :
    ℚ → List (Signal × Bool) → List OrderRec × ℚ
  | cash, [] => ([], cash)
  | cash, (sig, ok) :: rest =>
    let alloc := min cash (capital * max_alloc)
    if alloc ≤ 0 then execLoop capital max_alloc cash rest
    else if ok then
      let tail := execLoop capital max_alloc (cash - alloc) rest
      ({ ticker := sig.ticker, action := sig.action.toUpper,
         notional := round2 alloc } :: tail.1, tail.2)
    else execLoop capital max_alloc cash rest

/-- The allocations consumed by the successful submissions, in order — the
same recursion as `execLoop`, keeping just the deducted amounts. -/
def successAllocs (capital max_alloc : ℚ) :
    ℚ → List (Signal × Bool) → List ℚ
  | _, [] => []
  | cash, (_, ok) :: rest =>
    let alloc := min cash (capital * max_alloc)
    if alloc ≤ 0 then successAllocs capital max_alloc cash rest
    else if ok then alloc :: successAllocs capital max_alloc (cash - alloc) rest
    else successAllocs capital max_alloc cash rest

/-- `execute_orders` from `trade/alpaca_broker.py`. -/
def execute_orders (env : BrokerEnv) (signals : List (Signal × Bool))
    (capital max_alloc_per_trade : ℚ) : ExecResult :=
  if env.connected = false then
    { orders := [], cash_left := capital, error := some "No Alpaca connection" }
  else if env.accountOk = false then
    { orders := [], cash_left := capital, error := some env.accountErr }
  else
    let cash := min capital env.buying_power
    let res := execLoop capital max_alloc_per_trade cash signals
    { orders := res.1, cash_left := round2 res.2,
      executed_count := some res.1.length }

/-! ## `learning/strategy_optimizer.py` -/

/-- The strategy-parameter dict `optimize_strategy` transforms; every key it
touches is optional with the default its `.get` supplies. -/
structure OptConfig where
  min_sentiment : Option ℚ := none
  take_profit_pct : Option ℚ := none
  stop_loss_pct : Option ℚ := none
  focus_stocks : Option (List String) := none
  position_size_multiplier : Option ℚ := none
deriving Repr, DecidableEq

/-- `analyzer.get_strategy_recommendations()` as read by `optimize_strategy`:
the `ready` flag and the `action` of each adjustment (the source also reads
each adjustment's `confidence` into a variable it never uses). -/
structure Recommendations where
  ready : Bool
  adjustments : List String
deriving Repr, DecidableEq

/-- The memory-backed inputs of live-mode optimization:
`metrics.get('win_rate', 0.5)` and `get_best_performing_stocks(limit=3)`. -/
structure OptEnv where
  win_rate : Option ℚ
  best_stocks : List String
deriving Repr, DecidableEq

/-- One branch of the `for adj in recommendations['adjustments']` loop. -/
def applyAdjustment (env : OptEnv) (cfg : OptConfig) (action : String) :
    OptConfig :=
  if action = "increase_sentiment_threshold" then
    let v := min (cfg.min_sentiment.getD (2/5) + 1/20) (7/10)
    { cfg with min_sentiment := some v }
  else if action = "lower_sentiment_threshold" then
    let v := max (cfg.min_sentiment.getD (2/5) - 1/20) (1/5)
    { cfg with min_sentiment := some v }
  else if action = "adjust_take_profit_stop_loss" then
    { cfg with
        take_profit_pct := some (cfg.take_profit_pct.getD (1/10) * (6/5)),
        stop_loss_pct := some (cfg.stop_loss_pct.getD (1/25) * (9/10)) }
  else if action = "focus_on_best_performers" then
    if env.best_stocks ≠ [] then { cfg with focus_stocks := some env.best_stocks }
    else cfg
  else cfg

/-- `StrategyOptimizer.optimize_strategy`: paper mode pins `min_sentiment` to
0.10 and returns; live mode applies the recommended adjustments when ready,
then sets the position-size multiplier from the win rate. -/
def optimize_strategy (paper_mode : Bool) (env : OptEnv)
    (recs : Recommendations) (base_config : OptConfig) : OptConfig :=
  if paper_mode then { base_config with min_sentiment := some (1/10) }
  else if recs.ready = false then base_config
  else
    let optimized := recs.adjustments.foldl (applyAdjustment env) base_config
    let wr := env.win_rate.getD (1/2)
    if 3/5 < wr then { optimized with position_size_multiplier := some (6/5) }
    else if wr < 2/5 then { optimized with position_size_multiplier := some (4/5) }
    else optimized

/-! ## `learning/trade_memory.py` and `learning/analyzer.py` -/

/-- A stored trade record: the three keys the analyzer and the retrieval read
(`timestamp`, `ticker`, `pnl`), each possibly absent. -/
structure TradeRec where
  ticker : Option String
  pnl : Option ℚ
  timestamp : Option String
deriving Repr, DecidableEq

/-- A stored signal record as `get_recent_signals` sees it: only `timestamp`
is read by retrieval; the remaining keys are opaque payload. -/
structure SignalRec where
  timestamp : Option String
  payload : String
deriving Repr, DecidableEq

/-- Python compares strings lexicographically by code point; that order is
`lexLe` (structurally recursive so that concrete comparisons evaluate). -/
def lexLe : List Char → List Char → Bool
  | [], _ => true
  | _ :: _, [] => false
  | a :: as, b :: bs => if a < b then true else if a = b then lexLe as bs else false

/-- Python's `a <= b` on strings (lexicographic by code point). -/
def pyStrLe (a b : String) : Bool := lexLe a.data b.data

/-- `TradeMemory.get_recent_trades`: keep the records whose timestamp string
(defaulting to `""`) is lexicographically at least the ISO cutoff string,
in stored order.  The cutoff `(datetime.now() - timedelta(days=days)).isoformat()`
is passed in as a string. -/
def get_recent_trades (trades : List TradeRec) (cutoff : String) :
    List TradeRec :=
  trades.filter (fun t => pyStrLe cutoff (t.timestamp.getD ""))

/-- `TradeMemory.get_recent_signals`: same retrieval over the signals file. -/
def get_recent_signals (signals : List SignalRec) (cutoff : String) :
    List SignalRec :=
  signals.filter (fun s => pyStrLe cutoff (s.timestamp.getD ""))

/-- Stable insertion sort, structurally recursive so concrete sorts evaluate
(pandas sorts are modelled up to tie order; see `sortedPerformance`). -/
def insertSorted (le : α → α → Bool) (x : α) : List α → List α
  | [] => [x]
  | y :: ys => if le x y then x :: y :: ys else y :: insertSorted le x ys

/-- Sorting by repeated insertion. -/
def insertionSort (le : α → α → Bool) : List α → List α
  | [] => []
  | x :: xs => insertSorted le x (insertionSort le xs)

/-- The insight messages `_generate_insights` can emit, one constructor per
`insights.append(...)` site (the human-readable formatting is elided; the
constructor arguments are the computed values interpolated into the text). -/
inductive InsightMsg where
  | strongWinRate
  | lowWinRate
  | goodRiskReward (ratio : ℚ)
  | poorRiskReward (ratio : ℚ)
  | bestPerformer (t : String)
  | worstPerformer (t : String)
  | lowFrequency
deriving Repr, DecidableEq

/-- The metrics dict `analyze_performance` returns.  The keys absent from the
no-trades early return are `Option` fields left `none` there. -/
structure Metrics where
  timestamp : Option String := none
  analysis_period_days : Option ℕ := none
  total_trades : ℕ
  winning_trades : Option ℕ := none
  losing_trades : Option ℕ := none
  win_rate : ℚ
  total_pnl : ℚ
  avg_win : Option ℚ := none
  avg_loss : Option ℚ := none
  best_stock : Option String := none
  worst_stock : Option String := none
  insights : List InsightMsg
deriving Repr, DecidableEq

/-- `df.groupby('ticker')['pnl'].sum()`: group keys sorted ascending (pandas
`sort=True`); records with a missing ticker are dropped, missing `pnl` values
are skipped by the sum (an all-missing group sums to 0). -/
def groupbyTickerPnl (ts : List TradeRec) : List (String × ℚ) :=
  let keys := insertionSort pyStrLe (ts.filterMap (fun t => t.ticker)).dedup
  keys.map (fun k =>
    (k, ((ts.filter (fun t => t.ticker == some k)).filterMap (fun t => t.pnl)).sum))

/-- `.sort_values(ascending=False)` on the grouped sums.  pandas uses an
unstable quicksort, so the order among tied sums is unspecified there; the
model fixes ties stably, which no verified statement depends on. -/
def sortedPerformance (ts : List TradeRec) : List (String × ℚ) :=
  insertionSort (fun a b => decide (b.2 ≤ a.2)) (groupbyTickerPnl ts)

/-- `_generate_insights`, as a function of the metrics computed so far (its
side effects on the learnings file do not touch the returned metrics). -/
def generateInsights (m : Metrics) : List InsightMsg :=
  let winRateIns : List InsightMsg :=
    if 3/5 < m.win_rate then [InsightMsg.strongWinRate]
    else if m.win_rate < 2/5 ∧ 10 < m.total_trades then [InsightMsg.lowWinRate]
    else []
  let aw := m.avg_win.getD 0
  let al := m.avg_loss.getD 0
  let rrIns : List InsightMsg :=
    if 0 < aw ∧ al < 0 then
      let ratio := |aw / al|
      if 2 < ratio then [InsightMsg.goodRiskReward ratio]
      else if ratio < 1 then [InsightMsg.poorRiskReward ratio]
      else []
    else []
  let stockIns : List InsightMsg :=
    match m.best_stock, m.worst_stock with
    | some b, some w =>
      if b ≠ "" ∧ w ≠ "" then
        [InsightMsg.bestPerformer b, InsightMsg.worstPerformer w]
      else []
    | _, _ => []
  let freqIns : List InsightMsg :=
    if m.total_trades < 5 ∧ 7 ≤ m.analysis_period_days.getD 0 then
      [InsightMsg.lowFrequency]
    else []
  winRateIns ++ rrIns ++ stockIns ++ freqIns

/-- `PerformanceAnalyzer.analyze_performance`.  The two clock reads become the
`cutoff` string (for `get_recent_trades`) and the `nowIso` string (stored in
the `timestamp` key); `days` is the `days` argument. -/
def analyze_performance (trades : List TradeRec) (cutoff nowIso : String)
    (days : ℕ) : Metrics :=
  let recent := get_recent_trades trades cutoff
  if recent.isEmpty then
    { total_trades := 0, win_rate := 0, total_pnl := 0, insights := [] }
  else
    let hasPnl := recent.any (fun t => t.pnl.isSome)
    let hasTicker := recent.any (fun t => t.ticker.isSome)
    let n := recent.length
    let winning := if hasPnl then
      (recent.filter (fun t =>
        match t.pnl with
        | some v => decide (0 < v)
        | none => false)).length else 0
    let losing := if hasPnl then
      (recent.filter (fun t =>
        match t.pnl with
        | some v => decide (v < 0)
        | none => false)).length else 0
    let pnls := recent.filterMap (fun t => t.pnl)
    let total_pnl := if hasPnl then pnls.sum else 0
    let win_rate : ℚ := if hasPnl then (winning : ℚ) / n else 0
    let sumWins := (pnls.filter (fun v => decide (0 < v))).sum
    let sumLosses := (pnls.filter (fun v => decide (v < 0))).sum
    let avg_win : ℚ :=
      if hasPnl then (if winning ≠ 0 then sumWins / winning else 0) else 0
    let avg_loss : ℚ :=
      if hasPnl then (if losing ≠ 0 then sumLosses / losing else 0) else 0
    let perf := if hasTicker ∧ hasPnl then sortedPerformance recent else []
    let m : Metrics :=
      { timestamp := some nowIso,
        analysis_period_days := some days,
        total_trades := n,
        winning_trades := some winning,
        losing_trades := some losing,
        win_rate := win_rate,
        total_pnl := total_pnl,
        avg_win := some avg_win,
        avg_loss := some avg_loss,
        best_stock := (perf.head?).map (fun p => p.1),
        worst_stock := (perf.getLast?).map (fun p => p.1),
        insights := [] }
    { m with insights := generateInsights m }

/-- Dropping the wall-clock field, to compare two analysis runs. -/
def metricsEraseTimestamp (m : Metrics) : Metrics := { m with timestamp := none }

/-! ## Theorems -/

/-- C1 (amended): when no ticker has usable price data — every ticker's column
is absent or has fewer than `momentum_window + 1` non-NaN observations — the
generator returns an empty signal list, whatever the average sentiment; no
sentiment-only fallback exists. -/
theorem no_usable_price_data_yields_empty (prices : PriceFrame)
    (news reddit : List ScoredItem) (tickers : List String) (w : ℕ) (ms : ℚ)
    (h : ∀ t ∈ tickers, ∀ c, prices.col t = some c →
      (c.filterMap id).length < w + 1) :
    (simple_sentiment_momentum prices news reddit tickers w ms).1 = [] := by
  simp only [simple_sentiment_momentum]
  rw [List.filterMap_eq_nil_iff]
  intro t ht
  cases hc : prices.col t with
  | none => simp
  | some c => simp [h t ht c hc]

/-- Witness for the amended C1 at a concrete input. -/
theorem no_usable_price_data_yields_empty_witness :
    (simple_sentiment_momentum ⟨[]⟩ [⟨some (9/10)⟩] [] ["AAPL"] 6 (2/5)).1 = [] :=
  no_usable_price_data_yields_empty ⟨[]⟩ [⟨some (9/10)⟩] [] ["AAPL"] 6 (2/5)
    (by intro t ht c hc; simp [PriceFrame.col] at hc)

/-- C1 counterexample to the claim as stated: with no price data for the sole
ticker and average sentiment 0.9 ≥ min_sentiment 0.4, the generator returns an
empty list — it does not emit sentiment-only BUY signals. -/
theorem sentiment_only_fallback_absent :
    (2/5 : ℚ) ≤ (simple_sentiment_momentum ⟨[]⟩ [⟨some (9/10)⟩] [] ["AAPL"] 6 (2/5)).2 ∧
    (simple_sentiment_momentum ⟨[]⟩ [⟨some (9/10)⟩] [] ["AAPL"] 6 (2/5)).1 = [] := by
  constructor
  · simp [simple_sentiment_momentum, avgSentiment]
    norm_num
  · simp [simple_sentiment_momentum, PriceFrame.col]

/-- Dict assignment only rearranges or adds the bound pair. -/
lemma mem_insertInsight {m : List (String × WeekendInsight)} {k : String}
    {v : WeekendInsight} {p : String × WeekendInsight}
    (hp : p ∈ insertInsight m k v) : p ∈ m ∨ p = (k, v) := by
  unfold insertInsight at hp
  split at hp
  · obtain ⟨q, hq, hpq⟩ := List.mem_map.mp hp
    by_cases hk : q.1 == k
    · right; rw [if_pos hk] at hpq; exact hpq.symm
    · left; rw [if_neg hk] at hpq; exact hpq ▸ hq
  · rcases List.mem_append.mp hp with h | h
    · exact Or.inl h
    · exact Or.inr (by simpa using h)

/-- Every value stored in `insights_map` is one of the weekend insights. -/
lemma mem_insightsMapOf_aux (ws : List WeekendInsight) :
    ∀ (acc : List (String × WeekendInsight)) (p : String × WeekendInsight),
      p ∈ ws.foldl (fun m w =>
        match w.ticker with
        | some t => insertInsight m t w
        | none => m) acc → p ∈ acc ∨ p.2 ∈ ws := by
  induction ws with
  | nil => intro acc p hp; exact Or.inl hp
  | cons w ws ih =>
    intro acc p hp
    simp only [List.foldl_cons] at hp
    rcases ih _ p hp with h | h
    · cases hw : w.ticker with
      | none => rw [hw] at h; exact Or.inl h
      | some t =>
        rw [hw] at h
        rcases mem_insertInsight h with h | h
        · exact Or.inl h
        · exact Or.inr (by rw [h]; exact List.mem_cons_self _ _)
    · exact Or.inr (List.mem_cons_of_mem _ h)

/-- Every value stored in `insights_map` is one of the weekend insights. -/
lemma mem_insightsMapOf {ws : List WeekendInsight} {p : String × WeekendInsight}
    (hp : p ∈ insightsMapOf ws) : p.2 ∈ ws := by
  rcases mem_insightsMapOf_aux ws [] p hp with h | h
  · cases h
  · exact h

/-- A successful dict lookup returns a stored value. -/
lemma lookupInsight_mem {m : List (String × WeekendInsight)} {t : String}
    {ins : WeekendInsight} (h : lookupInsight m t = some ins) :
    ∃ p ∈ m, p.2 = ins := by
  unfold lookupInsight at h
  cases hf : m.find? (fun p => p.1 == t) with
  | none => rw [hf] at h; cases h
  | some p =>
    rw [hf] at h
    exact ⟨p, List.mem_of_find?_eq_some hf, by simpa using h⟩

/-- The historical bookkeeping changes only `historical_win_rate`. -/
lemma applyHistory_fields (hctx : String → Option TickerHistory) (sig : Signal) :
    (applyHistory hctx sig).2.strength = sig.strength ∧
    (applyHistory hctx sig).2.action = sig.action ∧
    (applyHistory hctx sig).2.ticker = sig.ticker := by
  unfold applyHistory
  cases hctx sig.ticker with
  | none => exact ⟨rfl, rfl, rfl⟩
  | some h => dsimp only; split <;> exact ⟨rfl, rfl, rfl⟩

/-- Every base signal's strength is `min avg_sent 1` with
`min_sentiment ≤ avg_sent`. -/
lemma mem_simple_signals {prices : PriceFrame} {news reddit : List ScoredItem}
    {tickers : List String} {w : ℕ} {ms : ℚ} {s : Signal}
    (hs : s ∈ (simple_sentiment_momentum prices news reddit tickers w ms).1) :
    ms ≤ avgSentiment (news ++ reddit) ∧
    s.strength = min (avgSentiment (news ++ reddit)) 1 := by
  simp only [simple_sentiment_momentum] at hs
  obtain ⟨t, ht, hf⟩ := List.mem_filterMap.mp hs
  cases hc : prices.col t with
  | none => rw [hc] at hf; cases hf
  | some c =>
    rw [hc] at hf
    dsimp only at hf
    split at hf
    · cases hf
    · split at hf
      · rename_i hcond
        cases hf
        exact ⟨hcond.1, rfl⟩
      · cases hf

/-- The enhancement step keeps a strength that was in `[0, 1]` inside
`[0, 1]`, provided every stored insight confidence lies in `[0, 1]`. -/
lemma enhanceSignal_strength_bound {imap : List (String × WeekendInsight)}
    {hctx : String → Option TickerHistory} {sig s : Signal}
    (hb0 : 0 ≤ sig.strength) (hb1 : sig.strength ≤ 1)
    (hconf : ∀ p ∈ imap, ∀ c, (p : String × WeekendInsight).2.confidence = some c →
      0 ≤ c ∧ c ≤ 1)
    (h : enhanceSignal imap hctx sig = some s) :
    0 ≤ s.strength ∧ s.strength ≤ 1 := by
  unfold enhanceSignal at h
  obtain ⟨hstr, -, -⟩ := applyHistory_fields hctx sig
  set sig2 := (applyHistory hctx sig).2 with hsig2
  dsimp only at h
  cases hl : lookupInsight imap sig2.ticker with
  | none =>
    rw [hl] at h
    cases h
    rw [hstr]; exact ⟨hb0, hb1⟩
  | some ins =>
    rw [hl] at h
    obtain ⟨p, hpmem, hp2⟩ := lookupInsight_mem hl
    have hc : 0 ≤ ins.confidence.getD (1/2) ∧ ins.confidence.getD (1/2) ≤ 1 := by
      cases hco : ins.confidence with
      | none => norm_num
      | some c => simpa using hconf p hpmem c (by rw [hp2, hco])
    dsimp only at h
    split at h
    · cases h
      refine ⟨le_min (by norm_num) ?_, by dsimp only; exact min_le_left _ _⟩
      dsimp only
      have hboost : (0:ℚ) ≤ (1 + ins.confidence.getD (1/2) * (1/2)) *
          (if (applyHistory hctx sig).1 then 6/5 else 1) := by
        apply mul_nonneg
        · nlinarith [hc.1]
        · split <;> norm_num
      exact mul_nonneg (hstr ▸ hb0) hboost
    · split at h
      · cases h
      · cases h
        rw [hstr]; exact ⟨hb0, hb1⟩

/-- C3 (amended): every signal from `simple_sentiment_momentum` and from
`enhanced_strategy_with_insights` has strength in `[0, 1]`, provided the
sentiment threshold is nonnegative and every weekend insight confidence lies
in `[0, 1]`.  (Unamended, the claim fails: the code clamps strength only from
above, and a weekend-only signal copies the raw confidence.) -/
theorem strength_in_unit_interval (prices : PriceFrame)
    (news reddit : List ScoredItem) (tickers : List String)
    (insights : List WeekendInsight) (w : ℕ) (ms : ℚ)
    (rag : Option (String → Option TickerHistory))
    (hms : 0 ≤ ms)
    (hconf : ∀ i ∈ insights, ∀ c, i.confidence = some c → 0 ≤ c ∧ c ≤ 1) :
    (∀ s ∈ (simple_sentiment_momentum prices news reddit tickers w ms).1,
      0 ≤ s.strength ∧ s.strength ≤ 1) ∧
    (∀ s ∈ (enhanced_strategy_with_insights prices news reddit tickers insights
        w ms rag).1, 0 ≤ s.strength ∧ s.strength ≤ 1) := by
  have hbase : ∀ s ∈ (simple_sentiment_momentum prices news reddit tickers w ms).1,
      0 ≤ s.strength ∧ s.strength ≤ 1 := by
    intro s hs
    obtain ⟨hle, hstr⟩ := mem_simple_signals hs
    constructor
    · rw [hstr]; exact le_min (le_trans hms hle) (by norm_num)
    · rw [hstr]; exact min_le_right _ _
  have hconfmap : ∀ p ∈ insightsMapOf insights, ∀ c,
      (p : String × WeekendInsight).2.confidence = some c → 0 ≤ c ∧ c ≤ 1 :=
    fun p hp c hc => hconf p.2 (mem_insightsMapOf hp) c hc
  refine ⟨hbase, ?_⟩
  intro s hs
  simp only [enhanced_strategy_with_insights] at hs
  rcases List.mem_append.mp hs with hs | hs
  · obtain ⟨sig, hsig, henh⟩ := List.mem_filterMap.mp hs
    exact enhanceSignal_strength_bound (hbase sig hsig).1 (hbase sig hsig).2
      hconfmap henh
  · unfold weekendAdditions at hs
    obtain ⟨p, hp, hf⟩ := List.mem_filterMap.mp hs
    have hc : 0 ≤ p.2.confidence.getD (1/2) ∧ p.2.confidence.getD (1/2) ≤ 1 := by
      cases hco : p.2.confidence with
      | none => norm_num
      | some c => simpa using hconfmap p hp c hco
    dsimp only at hf
    split at hf
    · cases hf
    · split at hf
      · cases hcol : prices.col p.1 with
        | none => rw [hcol] at hf; cases hf
        | some c =>
          rw [hcol] at hf
          dsimp only at hf
          split at hf
          · cases hf
            exact hc
          · cases hf
      · cases hf

/-- Witness for the amended C3 at a concrete input. -/
theorem strength_in_unit_interval_witness :
    (∀ s ∈ (simple_sentiment_momentum ⟨[]⟩ [] [] ["AAPL"] 6 (2/5)).1,
      0 ≤ s.strength ∧ s.strength ≤ 1) ∧
    (∀ s ∈ (enhanced_strategy_with_insights ⟨[]⟩ [] [] ["AAPL"] [] 6 (2/5)
        none).1, 0 ≤ s.strength ∧ s.strength ≤ 1) :=
  strength_in_unit_interval ⟨[]⟩ [] [] ["AAPL"] [] 6 (2/5) none (by norm_num)
    (by intro i hi; cases hi)

/-- C3 counterexample to the claim as stated: with a negative sentiment
threshold the base strategy emits a signal of strength −1/2, and a
weekend-only signal copies a confidence of 3/2 as its strength — both outside
`[0, 1]`. -/
theorem strength_outside_unit_interval :
    ((simple_sentiment_momentum ⟨[("A", [some 1, some 2, some 3])]⟩
        [⟨some (-1/2)⟩] [] ["A"] 2 (-1)).1.map Signal.strength = [-(1/2)] ∧
      ¬ ((0:ℚ) ≤ -(1/2))) ∧
    ((enhanced_strategy_with_insights ⟨[("B", [some 1, some 2, some 3])]⟩ [] []
        ["B"] [⟨some "B", some "BULLISH", some (3/2), none⟩] 2 (2/5)
        none).1.map Signal.strength = [3/2] ∧
      ¬ ((3/2:ℚ) ≤ 1)) := by
  refine ⟨⟨?_, by norm_num⟩, ⟨?_, by norm_num⟩⟩
  · simp [simple_sentiment_momentum, avgSentiment, PriceFrame.col, momentumOf,
      List.filterMap_cons]
    norm_num
  · simp [enhanced_strategy_with_insights, weekendAdditions, insightsMapOf,
      insertInsight, lookupInsight, simple_sentiment_momentum, avgSentiment,
      PriceFrame.col, momentumOf, List.filterMap_cons, enhanceSignal,
      applyHistory, historicalContext]
    norm_num

/-- C4: at or past the maximum hold (take profit not reached, minimum hold
met), a swing position closes with `max_hold_time_profit` on any profit, with
`max_hold_time_small_loss` on a loss strictly inside −1%, and otherwise is
left to the stop-loss rule: in particular at `pnl = −5%` it holds with reason
`hold_for_stop_loss` when `stop_loss_pct > 5%` and closes with reason
`stop_loss` when `stop_loss_pct ≤ 5%`. -/
theorem max_hold_exit_policy (cfg : PMConfig) (plpc h : ℚ)
    (hswing : cfg.trading_style = "swing")
    (hminhold : cfg.min_hold_hours ≤ h)
    (hmaxhold : cfg.max_hold_days ≤ ⌊h / 24⌋)
    (htp : plpc < cfg.take_profit_pct) :
    (plpc = -(5/100) →
      (5/100 < cfg.stop_loss_pct →
        should_close_position cfg plpc (some h) = (false, "hold_for_stop_loss")) ∧
      (cfg.stop_loss_pct ≤ 5/100 →
        should_close_position cfg plpc (some h) = (true, "stop_loss"))) ∧
    (-cfg.stop_loss_pct < plpc →
      (0 < plpc →
        should_close_position cfg plpc (some h) = (true, "max_hold_time_profit")) ∧
      (-(1/100) < plpc → plpc ≤ 0 →
        should_close_position cfg plpc (some h) = (true, "max_hold_time_small_loss")) ∧
      (plpc ≤ -(1/100) →
        should_close_position cfg plpc (some h) = (false, "hold_for_stop_loss"))) := by
  unfold should_close_position
  rw [if_neg (not_le.mpr htp)]
  constructor
  · rintro rfl
    constructor
    · intro hsl
      rw [if_neg (by intro hc; linarith)]
      dsimp only
      rw [if_pos hswing, if_neg (not_lt.mpr hminhold), if_pos hmaxhold,
        if_neg (by norm_num), if_neg (by norm_num)]
    · intro hsl
      rw [if_pos (by linarith)]
  · intro hnosl
    refine ⟨?_, ?_, ?_⟩
    · intro hpos
      rw [if_neg (by intro hc; linarith)]
      dsimp only
      rw [if_pos hswing, if_neg (not_lt.mpr hminhold), if_pos hmaxhold,
        if_pos hpos]
    · intro hsmall hnonpos
      rw [if_neg (by intro hc; linarith)]
      dsimp only
      rw [if_pos hswing, if_neg (not_lt.mpr hminhold), if_pos hmaxhold,
        if_neg (not_lt.mpr hnonpos), if_pos hsmall]
    · intro hbig
      rw [if_neg (by intro hc; linarith)]
      dsimp only
      rw [if_pos hswing, if_neg (not_lt.mpr hminhold), if_pos hmaxhold,
        if_neg (by intro hc; linarith), if_neg (by intro hc; linarith)]

/-- Witness for C4 at a concrete input: a −5% position held 7 full days with a
10% stop loss is left to the stop-loss rule. -/
theorem max_hold_exit_policy_witness :
    should_close_position ⟨"swing", 24, 7, 1/10, 1/10⟩ (-(5/100)) (some 168) =
      (false, "hold_for_stop_loss") :=
  ((max_hold_exit_policy ⟨"swing", 24, 7, 1/10, 1/10⟩ (-(5/100)) 168 rfl
    (by norm_num) (by norm_num) (by norm_num)).1 rfl).1 (by norm_num)

/-- The live-mode optimizer step for a single recommended adjustment changes
`min_sentiment` exactly as the matching branch does. -/
lemma optimize_increase_min_sentiment (env : OptEnv) (c : OptConfig) :
    (optimize_strategy false env ⟨true, ["increase_sentiment_threshold"]⟩
      c).min_sentiment = some (min (c.min_sentiment.getD (2/5) + 1/20) (7/10)) := by
  unfold optimize_strategy applyAdjustment
  simp only [List.foldl_cons, List.foldl_nil, if_pos rfl]
  norm_num
  split <;> try rfl
  split <;> rfl

/-- As `optimize_increase_min_sentiment`, for the lowering branch. -/
lemma optimize_lower_min_sentiment (env : OptEnv) (c : OptConfig) :
    (optimize_strategy false env ⟨true, ["lower_sentiment_threshold"]⟩
      c).min_sentiment = some (max (c.min_sentiment.getD (2/5) - 1/20) (1/5)) := by
  unfold optimize_strategy applyAdjustment
  simp only [List.foldl_cons, List.foldl_nil]
  norm_num
  split <;> try rfl
  split <;> rfl

/-- C6: iterating the live-mode `increase_sentiment_threshold` adjustment from
any start not above 0.7 never pushes `min_sentiment` above 0.7, and iterating
`lower_sentiment_threshold` from any start not below 0.2 never pushes it
below 0.2. -/
theorem sentiment_threshold_clamped (env : OptEnv) (cfg : OptConfig) (n : ℕ)
    (hup : cfg.min_sentiment.getD (2/5) ≤ 7/10)
    (hdown : 1/5 ≤ cfg.min_sentiment.getD (2/5)) :
    (((fun c => optimize_strategy false env
        ⟨true, ["increase_sentiment_threshold"]⟩ c)^[n])
      cfg).min_sentiment.getD (2/5) ≤ 7/10 ∧
    1/5 ≤ (((fun c => optimize_strategy false env
        ⟨true, ["lower_sentiment_threshold"]⟩ c)^[n])
      cfg).min_sentiment.getD (2/5) := by
  constructor
  · induction n with
    | zero => simpa using hup
    | succ n ih =>
      rw [Function.iterate_succ_apply', optimize_increase_min_sentiment]
      simp only [Option.getD_some]
      exact min_le_right _ _
  · induction n with
    | zero => simpa using hdown
    | succ n ih =>
      rw [Function.iterate_succ_apply', optimize_lower_min_sentiment]
      simp only [Option.getD_some]
      exact le_max_right _ _

/-- Witness for C6 at a concrete input. -/
theorem sentiment_threshold_clamped_witness :
    (((fun c => optimize_strategy false ⟨some (1/2), []⟩
        ⟨true, ["increase_sentiment_threshold"]⟩ c)^[9])
      { min_sentiment := some (2/5) }).min_sentiment.getD (2/5) ≤ 7/10 ∧
    1/5 ≤ (((fun c => optimize_strategy false ⟨some (1/2), []⟩
        ⟨true, ["lower_sentiment_threshold"]⟩ c)^[9])
      { min_sentiment := some (2/5) }).min_sentiment.getD (2/5) :=
  sentiment_threshold_clamped ⟨some (1/2), []⟩ { min_sentiment := some (2/5) } 9
    (by norm_num) (by norm_num)

/-- The live-mode TP/SL adjustment step, on both fields. -/
lemma optimize_adjust_tpsl (env : OptEnv) (c : OptConfig) :
    (optimize_strategy false env ⟨true, ["adjust_take_profit_stop_loss"]⟩
      c).take_profit_pct = some (c.take_profit_pct.getD (1/10) * (6/5)) ∧
    (optimize_strategy false env ⟨true, ["adjust_take_profit_stop_loss"]⟩
      c).stop_loss_pct = some (c.stop_loss_pct.getD (1/25) * (9/10)) := by
  unfold optimize_strategy applyAdjustment
  simp only [List.foldl_cons, List.foldl_nil]
  norm_num
  constructor
  · split <;> try rfl
    split <;> rfl
  · split <;> try rfl
    split <;> rfl

/-- Closed forms of TP and SL under iterated live-mode adjustment. -/
lemma tpsl_iterate_formula (env : OptEnv) (cfg : OptConfig) (t0 s0 : ℚ)
    (ht : cfg.take_profit_pct = some t0) (hs : cfg.stop_loss_pct = some s0) :
    ∀ n : ℕ,
      (((fun c => optimize_strategy false env
          ⟨true, ["adjust_take_profit_stop_loss"]⟩ c)^[n])
        cfg).take_profit_pct = some (t0 * (6/5)^n) ∧
      (((fun c => optimize_strategy false env
          ⟨true, ["adjust_take_profit_stop_loss"]⟩ c)^[n])
        cfg).stop_loss_pct = some (s0 * (9/10)^n) := by
  intro n
  induction n with
  | zero => simpa using ⟨ht, hs⟩
  | succ n ih =>
    rw [Function.iterate_succ_apply']
    refine ⟨?_, ?_⟩
    · rw [(optimize_adjust_tpsl env _).1, ih.1]
      simp [pow_succ]; ring
    · rw [(optimize_adjust_tpsl env _).2, ih.2]
      simp [pow_succ]; ring

/-- C5 counterexample: starting from the live defaults TP = 0.10, SL = 0.04,
no bound caps `take_profit_pct` across optimization cycles — each
`adjust_take_profit_stop_loss` multiplies it by 1.2 with no ceiling. -/
theorem take_profit_unbounded :
    ¬ ∃ B : ℚ, ∀ n : ℕ,
      (((fun c => optimize_strategy false ⟨some (1/2), []⟩
          ⟨true, ["adjust_take_profit_stop_loss"]⟩ c)^[n])
        { take_profit_pct := some (1/10), stop_loss_pct := some (1/25) :
          OptConfig }).take_profit_pct.getD (1/10) ≤ B := by
  rintro ⟨B, hB⟩
  obtain ⟨n, hn⟩ := exists_nat_gt (50 * B)
  have hfor := (tpsl_iterate_formula ⟨some (1/2), []⟩
    { take_profit_pct := some (1/10), stop_loss_pct := some (1/25) }
    (1/10) (1/25) rfl rfl n).1
  have hval := hB n
  rw [hfor] at hval
  simp only [Option.getD_some] at hval
  have hpow : (1 : ℚ) + n * (1/5) ≤ (6/5)^n := by
    have hb := one_add_mul_le_pow (by norm_num : (-2:ℚ) ≤ 1/5) n
    have : ((1:ℚ) + 1/5) ^ n = (6/5)^n := by norm_num
    linarith [hb, this ▸ hb]
  have hq : (50 * B : ℚ) < n := by exact_mod_cast hn
  nlinarith

/-- C5 (amended): under iterated live-mode `adjust_take_profit_stop_loss`,
`stop_loss_pct` is bounded — it stays in `(0, s0]` for any positive start
`s0`, falling geometrically — while `take_profit_pct` follows the closed form
`t0 · 1.2ⁿ`, which grows without bound (see `take_profit_unbounded`). -/
theorem tpsl_drift_bounds (env : OptEnv) (cfg : OptConfig) (t0 s0 : ℚ) (n : ℕ)
    (ht : cfg.take_profit_pct = some t0) (hs : cfg.stop_loss_pct = some s0)
    (hs0 : 0 < s0) :
    (((fun c => optimize_strategy false env
        ⟨true, ["adjust_take_profit_stop_loss"]⟩ c)^[n])
      cfg).take_profit_pct = some (t0 * (6/5)^n) ∧
    (((fun c => optimize_strategy false env
        ⟨true, ["adjust_take_profit_stop_loss"]⟩ c)^[n])
      cfg).stop_loss_pct = some (s0 * (9/10)^n) ∧
    0 < s0 * (9/10)^n ∧ s0 * (9/10)^n ≤ s0 := by
  obtain ⟨h1, h2⟩ := tpsl_iterate_formula env cfg t0 s0 ht hs n
  refine ⟨h1, h2, ?_, ?_⟩
  · positivity
  · calc s0 * (9/10)^n ≤ s0 * 1 := by
          apply mul_le_mul_of_nonneg_left _ (le_of_lt hs0)
          exact pow_le_one₀ (by norm_num) (by norm_num)
    _ = s0 := mul_one s0

/-- Witness for the amended C5 at a concrete input. -/
theorem tpsl_drift_bounds_witness :
    (((fun c => optimize_strategy false ⟨some (1/2), []⟩
        ⟨true, ["adjust_take_profit_stop_loss"]⟩ c)^[3])
      { take_profit_pct := some (1/10), stop_loss_pct := some (1/25) :
        OptConfig }).take_profit_pct = some ((1/10) * (6/5)^3) ∧
    (((fun c => optimize_strategy false ⟨some (1/2), []⟩
        ⟨true, ["adjust_take_profit_stop_loss"]⟩ c)^[3])
      { take_profit_pct := some (1/10), stop_loss_pct := some (1/25) :
        OptConfig }).stop_loss_pct = some ((1/25) * (9/10)^3) ∧
    0 < (1/25 : ℚ) * (9/10)^3 ∧ (1/25 : ℚ) * (9/10)^3 ≤ 1/25 :=
  tpsl_drift_bounds ⟨some (1/2), []⟩
    { take_profit_pct := some (1/10), stop_loss_pct := some (1/25) }
    (1/10) (1/25) 3 rfl rfl (by norm_num)

/-- A signal whose submission raises is skipped and the loop proceeds as if
it were absent. -/
lemma execLoop_skip_failed (capital ma : ℚ) (sig : Signal) :
    ∀ (pre post : List (Signal × Bool)) (cash : ℚ),
      execLoop capital ma cash (pre ++ (sig, false) :: post) =
      execLoop capital ma cash (pre ++ post) := by
  intro pre
  induction pre with
  | nil =>
    intro post cash
    simp only [List.nil_append, execLoop]
    split
    · rfl
    · simp
  | cons hd pre ih =>
    intro post cash
    obtain ⟨s, ok⟩ := hd
    simp only [List.cons_append, execLoop]
    split
    · exact ih post cash
    · cases ok with
      | false => simpa using ih post cash
      | true => simp [ih post (cash - min cash (capital * ma))]

/-- The loop's final cash is the starting cash minus the successful
allocations. -/
lemma execLoop_cash_spent (capital ma : ℚ) :
    ∀ (sigs : List (Signal × Bool)) (cash : ℚ),
      (execLoop capital ma cash sigs).2 =
        cash - (successAllocs capital ma cash sigs).sum := by
  intro sigs
  induction sigs with
  | nil => intro cash; simp [execLoop, successAllocs]
  | cons hd rest ih =>
    intro cash
    obtain ⟨s, ok⟩ := hd
    simp only [execLoop, successAllocs]
    split
    · simpa using ih cash
    · cases ok with
      | false => simpa using ih cash
      | true =>
        simp only [if_true, List.sum_cons]
        rw [ih (cash - min cash (capital * ma))]
        ring

/-- Cash never goes negative: each allocation is at most the remaining cash. -/
lemma execLoop_cash_nonneg (capital ma : ℚ) :
    ∀ (sigs : List (Signal × Bool)) (cash : ℚ), 0 ≤ cash →
      0 ≤ (execLoop capital ma cash sigs).2 := by
  intro sigs
  induction sigs with
  | nil => intro cash h; simpa [execLoop] using h
  | cons hd rest ih =>
    intro cash h
    obtain ⟨s, ok⟩ := hd
    simp only [execLoop]
    split
    · exact ih cash h
    · cases ok with
      | false => simpa using ih cash h
      | true =>
        simp only [if_true]
        exact ih (cash - min cash (capital * ma))
          (by linarith [min_le_left cash (capital * ma)])

/-- The loop submits at most one order per signal. -/
lemma execLoop_orders_length (capital ma : ℚ) :
    ∀ (sigs : List (Signal × Bool)) (cash : ℚ),
      (execLoop capital ma cash sigs).1.length ≤ sigs.length := by
  intro sigs
  induction sigs with
  | nil => intro cash; simp [execLoop]
  | cons hd rest ih =>
    intro cash
    obtain ⟨s, ok⟩ := hd
    simp only [execLoop]
    split
    · exact le_trans (ih cash) (Nat.le_succ _)
    · cases ok with
      | false => exact le_trans (by simpa using ih cash) (Nat.le_succ _)
      | true =>
        simp only [if_true, List.length_cons]
        exact Nat.succ_le_succ (ih (cash - min cash (capital * ma)))

/-- Half-to-even rounding of a nonnegative rational is nonnegative. -/
lemma roundHalfEven_nonneg {q : ℚ} (h : 0 ≤ q) : 0 ≤ roundHalfEven q := by
  have hf : (0:ℤ) ≤ ⌊q⌋ := Int.floor_nonneg.mpr h
  simp only [roundHalfEven]
  split_ifs <;> omega

/-- `round(_, 2)` of a nonnegative rational is nonnegative. -/
lemma round2_nonneg {q : ℚ} (h : 0 ≤ q) : 0 ≤ round2 q := by
  unfold round2
  have h1 : (0:ℤ) ≤ roundHalfEven (q * 100) :=
    roundHalfEven_nonneg (by positivity)
  have h2 : (0:ℚ) ≤ (roundHalfEven (q * 100) : ℚ) := by exact_mod_cast h1
  exact div_nonneg h2 (by norm_num)

/-- C7: with no broker connection (or a failed account query) `execute_orders`
returns an error marker, an empty order list and `cash_left = capital`
without submitting anything; and a signal whose submission raises is skipped
while the rest of the batch proceeds. -/
theorem broker_failure_and_skip_semantics (env : BrokerEnv) (capital ma : ℚ)
    (sigs pre post : List (Signal × Bool)) (sig : Signal) :
    (env.connected = false →
      execute_orders env sigs capital ma =
        { orders := [], cash_left := capital,
          error := some "No Alpaca connection" }) ∧
    (env.connected = true → env.accountOk = false →
      execute_orders env sigs capital ma =
        { orders := [], cash_left := capital, error := some env.accountErr }) ∧
    execute_orders env (pre ++ (sig, false) :: post) capital ma =
      execute_orders env (pre ++ post) capital ma := by
  refine ⟨?_, ?_, ?_⟩
  · intro h; simp [execute_orders, h]
  · intro h1 h2; simp [execute_orders, h1, h2]
  · unfold execute_orders
    split
    · rfl
    · split
      · rfl
      · simp only [execLoop_skip_failed]

/-- Witness for C7 at a concrete input. -/
theorem broker_failure_and_skip_semantics_witness :
    execute_orders ⟨false, true, "boom", 0⟩ [] 100 (1/4) =
      { orders := [], cash_left := 100,
        error := some "No Alpaca connection" } :=
  (broker_failure_and_skip_semantics ⟨false, true, "boom", 0⟩ 100 (1/4)
    [] [] [] { ticker := "AAPL", action := "BUY", strength := 1, momentum := 0 }).1
    rfl

/-- C9 (amended): with a working connection, the exact leftover
`min(capital, buying_power) − Σ successful allocations` is nonnegative, and
the returned `cash_left` is that amount rounded to the nearest cent (Python's
`round(_, 2)`), hence also nonnegative. -/
theorem cash_accounting (env : BrokerEnv) (sigs : List (Signal × Bool))
    (capital ma : ℚ) (hc : env.connected = true) (ha : env.accountOk = true)
    (hcap : 0 ≤ capital) (hbp : 0 ≤ env.buying_power) :
    (execute_orders env sigs capital ma).cash_left =
      round2 (min capital env.buying_power -
        (successAllocs capital ma (min capital env.buying_power) sigs).sum) ∧
    0 ≤ min capital env.buying_power -
      (successAllocs capital ma (min capital env.buying_power) sigs).sum ∧
    0 ≤ (execute_orders env sigs capital ma).cash_left := by
  have hstart : 0 ≤ min capital env.buying_power := le_min hcap hbp
  have hcash := execLoop_cash_spent capital ma sigs (min capital env.buying_power)
  have hnn := execLoop_cash_nonneg capital ma sigs (min capital env.buying_power)
    hstart
  have hleft : (execute_orders env sigs capital ma).cash_left =
      round2 (execLoop capital ma (min capital env.buying_power) sigs).2 := by
    simp [execute_orders, hc, ha]
  refine ⟨by rw [hleft, hcash], by rw [← hcash]; exact hnn, ?_⟩
  rw [hleft]
  exact round2_nonneg hnn

/-- Witness for the amended C9 at a concrete input. -/
theorem cash_accounting_witness :
    (execute_orders ⟨true, true, "", 1000⟩ [] 100 (1/4)).cash_left =
      round2 (min (100:ℚ) 1000 -
        (successAllocs 100 (1/4) (min (100:ℚ) 1000) []).sum) ∧
    0 ≤ min (100:ℚ) 1000 -
      (successAllocs 100 (1/4) (min (100:ℚ) 1000) []).sum ∧
    0 ≤ (execute_orders ⟨true, true, "", 1000⟩ [] 100 (1/4)).cash_left :=
  cash_accounting ⟨true, true, "", 1000⟩ [] 100 (1/4) rfl rfl (by norm_num)
    (by norm_num)

/-- C9 counterexample to the claim as stated: the returned `cash_left` is the
cent-rounded leftover, not the exact one — with capital $0.001, no signals
and ample buying power the exact leftover is 0.001 but `cash_left` is 0. -/
theorem cash_left_is_rounded :
    (execute_orders ⟨true, true, "", 1⟩ [] (1/1000) (1/4)).cash_left = 0 ∧
    min (1/1000 : ℚ) 1 -
      (successAllocs (1/1000) (1/4) (min (1/1000 : ℚ) 1) []).sum = 1/1000 ∧
    (0 : ℚ) ≠ 1/1000 := by
  refine ⟨?_, ?_, by norm_num⟩
  · have hfl : ⌊(1/10 : ℚ)⌋ = 0 := by
      rw [Int.floor_eq_zero_iff]
      constructor <;> norm_num
    have hr : round2 (1/1000) = 0 := by
      have h100 : (1/1000 : ℚ) * 100 = 1/10 := by norm_num
      simp only [round2, roundHalfEven, h100, hfl]
      norm_num
    have hmin : min (1/1000 : ℚ) 1 = 1/1000 := by norm_num
    simp [execute_orders, execLoop, hmin, hr]
    rw [show ((1000:ℚ)⁻¹ ⊓ 1) = 1/1000 by norm_num]
    exact hr
  · simp [successAllocs]
    norm_num

/-- C2 (amended): `execute_orders` makes a single allocation pass — it never
submits more orders than it was given signals; there is no second pass that
invests the leftover cash, which is simply returned (see
`no_second_pass_spends_leftover` for the $1000 / 0.25 / 3-signal scenario
leaving $250 idle). -/
theorem single_pass_order_count (env : BrokerEnv)
    (sigs : List (Signal × Bool)) (capital ma : ℚ) :
    (execute_orders env sigs capital ma).orders.length ≤ sigs.length := by
  unfold execute_orders
  split
  · simp
  · split
    · simp
    · exact execLoop_orders_length capital ma sigs _

/-- C2 counterexample to the claim as stated: capital $1000, 25% per-trade
cap, 3 signals, every submission succeeding — pass 1 leaves $250, which
exceeds any minimum order size (Alpaca's notional minimum is $1), yet no
additional order is submitted and `cash_left` stays $250. -/
theorem no_second_pass_spends_leftover :
    (execute_orders ⟨true, true, "", 1000⟩
      [({ ticker := "AAPL", action := "BUY", strength := 1, momentum := 0 }, true),
       ({ ticker := "MSFT", action := "BUY", strength := 1, momentum := 0 }, true),
       ({ ticker := "NVDA", action := "BUY", strength := 1, momentum := 0 }, true)]
      1000 (1/4)).orders.length = 3 ∧
    (execute_orders ⟨true, true, "", 1000⟩
      [({ ticker := "AAPL", action := "BUY", strength := 1, momentum := 0 }, true),
       ({ ticker := "MSFT", action := "BUY", strength := 1, momentum := 0 }, true),
       ({ ticker := "NVDA", action := "BUY", strength := 1, momentum := 0 }, true)]
      1000 (1/4)).cash_left = 250 ∧
    ¬ ((250 : ℚ) < 1) := by
  have h1 : min (1000:ℚ) 1000 = 1000 := by norm_num
  have h2 : min (1000:ℚ) (1000 * (1/4)) = 250 := by norm_num
  have h3 : min (750:ℚ) (1000 * (1/4)) = 250 := by norm_num
  have h4 : min (500:ℚ) (1000 * (1/4)) = 250 := by norm_num
  have hfl : ⌊(250:ℚ) * 100⌋ = 25000 := by norm_num
  refine ⟨?_, ?_, by norm_num⟩ <;>
    simp [execute_orders, execLoop, h1, h2, h3, h4, round2, roundHalfEven, hfl] <;>
    norm_num

/-- The generated insights read every metrics field except the wall-clock
timestamp. -/
lemma generateInsights_timestamp_irrel (m : Metrics) (x : Option String) :
    generateInsights { m with timestamp := x } = generateInsights m := rfl

/-- C8 (amended): the analysis is a pure function of the retrieved trade
window — two runs over an unchanged ledger whose cutoffs select the same
records return identical metrics except for the embedded wall-clock
`timestamp` field (which differs whenever the two calls read different
clocks and at least one trade is in the window). -/
theorem analyze_deterministic_except_timestamp (trades : List TradeRec)
    (cut1 cut2 now1 now2 : String) (days : ℕ)
    (hsame : get_recent_trades trades cut1 = get_recent_trades trades cut2) :
    metricsEraseTimestamp (analyze_performance trades cut1 now1 days) =
    metricsEraseTimestamp (analyze_performance trades cut2 now2 days) := by
  unfold analyze_performance
  rw [hsame]
  by_cases h : (get_recent_trades trades cut2).isEmpty
  · simp only [h, if_true]
  · simp only [h, Bool.false_eq_true, if_false]
    rfl

/-- Witness for the amended C8 at a concrete input. -/
theorem analyze_deterministic_except_timestamp_witness :
    metricsEraseTimestamp (analyze_performance
      [{ ticker := some "A", pnl := some 1,
         timestamp := some "2026-01-02T00:00:00" }]
      "2026-01-01T00:00:00" "2026-01-08T10:00:00" 7) =
    metricsEraseTimestamp (analyze_performance
      [{ ticker := some "A", pnl := some 1,
         timestamp := some "2026-01-02T00:00:00" }]
      "2026-01-01T00:00:00" "2026-01-08T10:00:01" 7) :=
  analyze_deterministic_except_timestamp
    [{ ticker := some "A", pnl := some 1,
       timestamp := some "2026-01-02T00:00:00" }]
    "2026-01-01T00:00:00" "2026-01-01T00:00:00"
    "2026-01-08T10:00:00" "2026-01-08T10:00:01" 7 rfl

/-- C8 counterexample to the claim as stated: two analysis calls over the
same one-trade ledger return different metrics objects, because each embeds
the wall clock it was called at in the `timestamp` key. -/
theorem analyze_not_idempotent :
    analyze_performance
      [{ ticker := some "A", pnl := some 1,
         timestamp := some "2026-01-02T00:00:00" }]
      "2026-01-01T00:00:00" "2026-01-08T10:00:00" 7 ≠
    analyze_performance
      [{ ticker := some "A", pnl := some 1,
         timestamp := some "2026-01-02T00:00:00" }]
      "2026-01-01T00:00:00" "2026-01-08T10:00:01" 7 := by
  intro h
  have h2 := congrArg Metrics.timestamp h
  have hrec : get_recent_trades
      [({ ticker := some "A", pnl := some 1,
          timestamp := some "2026-01-02T00:00:00" } : TradeRec)]
      "2026-01-01T00:00:00" =
      [{ ticker := some "A", pnl := some 1,
         timestamp := some "2026-01-02T00:00:00" }] := rfl
  rw [show (analyze_performance
      [{ ticker := some "A", pnl := some 1,
         timestamp := some "2026-01-02T00:00:00" }]
      "2026-01-01T00:00:00" "2026-01-08T10:00:00" 7).timestamp =
      some "2026-01-08T10:00:00" from rfl,
    show (analyze_performance
      [{ ticker := some "A", pnl := some 1,
         timestamp := some "2026-01-02T00:00:00" }]
      "2026-01-01T00:00:00" "2026-01-08T10:00:01" 7).timestamp =
      some "2026-01-08T10:00:01" from rfl] at h2
  simp at h2

/-- The structural comparison agrees with the lexicographic order: `lexLe`
holds exactly when the right list is not lexicographically below the left. -/
lemma lexLe_iff : ∀ as bs : List Char, lexLe as bs = true ↔ ¬ List.Lex (· < ·) bs as := by
  intro as
  induction as with
  | nil =>
    intro bs
    exact iff_of_true rfl (List.Lex.not_nil_right _ _)
  | cons a as ih =>
    intro bs
    cases bs with
    | nil =>
      simp only [lexLe]
      exact iff_of_false (by simp) (not_not_intro List.Lex.nil)
    | cons b bs =>
      simp only [lexLe]
      by_cases hab : a < b
      · rw [if_pos hab]
        refine iff_of_true rfl ?_
        intro hlt
        cases hlt with
        | cons h => exact absurd hab (lt_irrefl _)
        | rel h => exact absurd hab (asymm h)
      · rw [if_neg hab]
        by_cases heq : a = b
        · subst heq
          rw [if_pos rfl, ih bs]
          constructor
          · intro hnot hlt
            rw [List.Lex.cons_iff] at hlt
            exact hnot hlt
          · intro hnot hlt
            exact hnot (List.Lex.cons hlt)
        · rw [if_neg heq]
          have hba : b < a := lt_of_le_of_ne (le_of_not_lt hab) (Ne.symm heq)
          exact iff_of_false (by simp) (not_not_intro (List.Lex.rel hba))

/-- `pyStrLe` is the standard string order (lexicographic by code point). -/
lemma pyStrLe_iff (a b : String) : pyStrLe a b = true ↔ a ≤ b := by
  have hlt : (b < a) ↔ List.Lex (· < ·) b.data a.data := by
    rw [String.lt_iff_toList_lt]
    exact Iff.rfl
  unfold pyStrLe
  rw [lexLe_iff]
  exact (not_congr hlt).symm

/-- C10: with any nonempty cutoff string (ISO timestamps are never empty),
`get_recent_trades` and `get_recent_signals` return exactly the stored
records whose timestamp string is lexicographically at least the cutoff, as
an order-preserving sublist; a record lacking a timestamp defaults to `""`
and is always excluded. -/
theorem recent_retrieval_exact (trades : List TradeRec)
    (sigRecs : List SignalRec) (cutoff : String) (hcut : cutoff ≠ "") :
    (∀ t : TradeRec, t ∈ get_recent_trades trades cutoff ↔
      t ∈ trades ∧ cutoff ≤ t.timestamp.getD "") ∧
    (get_recent_trades trades cutoff).Sublist trades ∧
    (∀ s : SignalRec, s ∈ get_recent_signals sigRecs cutoff ↔
      s ∈ sigRecs ∧ cutoff ≤ s.timestamp.getD "") ∧
    (get_recent_signals sigRecs cutoff).Sublist sigRecs ∧
    (∀ t ∈ get_recent_trades trades cutoff, t.timestamp ≠ none) ∧
    (∀ s ∈ get_recent_signals sigRecs cutoff, s.timestamp ≠ none) := by
  have hdata : cutoff.data ≠ [] := by
    intro hnil
    apply hcut
    cases cutoff with
    | mk l => exact congrArg String.mk hnil
  have hexcl : pyStrLe cutoff "" = false := by
    unfold pyStrLe
    cases hd : cutoff.data with
    | nil => exact absurd hd hdata
    | cons c cs => rfl
  refine ⟨?_, List.filter_sublist _, ?_, List.filter_sublist _, ?_, ?_⟩
  · intro t
    rw [get_recent_trades, List.mem_filter, pyStrLe_iff]
  · intro s
    rw [get_recent_signals, List.mem_filter, pyStrLe_iff]
  · intro t ht hnone
    have := (List.mem_filter.mp ht).2
    rw [hnone] at this
    simp only [Option.getD_none] at this
    rw [hexcl] at this
    cases this
  · intro s hs hnone
    have := (List.mem_filter.mp hs).2
    rw [hnone] at this
    simp only [Option.getD_none] at this
    rw [hexcl] at this
    cases this

/-- Witness for C10 at a concrete input. -/
theorem recent_retrieval_exact_witness :
    (∀ t : TradeRec, t ∈ get_recent_trades
        [{ ticker := some "A", pnl := some 1, timestamp := some "2026-01-05" },
         { ticker := some "B", pnl := none, timestamp := none }]
        "2026-01-01" ↔
      t ∈ [({ ticker := some "A", pnl := some 1,
              timestamp := some "2026-01-05" } : TradeRec),
           { ticker := some "B", pnl := none, timestamp := none }] ∧
        ("2026-01-01" : String) ≤ t.timestamp.getD "") ∧
    (get_recent_trades
        [{ ticker := some "A", pnl := some 1, timestamp := some "2026-01-05" },
         { ticker := some "B", pnl := none, timestamp := none }]
        "2026-01-01").Sublist
      [{ ticker := some "A", pnl := some 1, timestamp := some "2026-01-05" },
       { ticker := some "B", pnl := none, timestamp := none }] ∧
    (∀ s : SignalRec, s ∈ get_recent_signals [] "2026-01-01" ↔
      s ∈ ([] : List SignalRec) ∧
        ("2026-01-01" : String) ≤ s.timestamp.getD "") ∧
    (get_recent_signals [] "2026-01-01").Sublist ([] : List SignalRec) ∧
    (∀ t ∈ get_recent_trades
        [{ ticker := some "A", pnl := some 1, timestamp := some "2026-01-05" },
         { ticker := some "B", pnl := none, timestamp := none }]
        "2026-01-01", t.timestamp ≠ none) ∧
    (∀ s ∈ get_recent_signals ([] : List SignalRec) "2026-01-01",
      s.timestamp ≠ none) :=
  recent_retrieval_exact
    [{ ticker := some "A", pnl := some 1, timestamp := some "2026-01-05" },
     { ticker := some "B", pnl := none, timestamp := none }]
    [] "2026-01-01" (by decide)

end DJNBroker
